import Mathlib

/-!
Verification of the DecompressChunk planner and executor of the
timescaledb-core repository against its natural-language specification.

The definitions below are a shallow embedding of the C sources:
the planner part (`build_decompression_map`, `make_vectorized_qual`,
`find_vectorized_quals`, the tail of `decompress_chunk_plan_create`)
and the executor part (`decompress_chunk_begin`, the vectorized
aggregation `perform_vectorized_sum_int4` and
`decompress_chunk_exec_impl`).  PostgreSQL machine integers are
modelled as unbounded `Int` with explicit range checks where the C
code checks for overflow; PostgreSQL node trees are modelled by the
inductive `Node`; catalog lookups (`get_commutator`, `get_opcode`,
`func_volatile`, the vector-predicate registry) are abstract function
parameters collected in `PlannerCatalog`.
-/

set_option maxHeartbeats 1600000
set_option maxRecDepth 100000

namespace TimescaleDecompress

/-- Expression nodes, restricted to the node tags that the planner code
distinguishes: `Var`, `Const` (with its null flag and a boolean datum),
`Param`, `PlaceHolderVar`, `OpExpr` and `FuncExpr`. -/
inductive Node where
  | var (varno : Nat) (varattno : Int)
  | const (constisnull : Bool) (constvalue : Bool)
  | param
  | placeHolderVar
  | opExpr (opno : Nat) (args : List Node)
  | funcExpr (funcid : Nat) (args : List Node)

/-- IsA(node, Var) test. -/
def Node.isVar : Node → Bool
  | .var _ _ => true
  | _ => false

/-- IsA(node, Const) test. -/
def Node.isConst : Node → Bool
  | .const _ _ => true
  | _ => false

/-- Abstract catalog state used by the planner: operator commutators,
operator implementation functions, the vector-predicate registry
(`get_vector_const_predicate` returning non-NULL) and function
volatility (`func_volatile(f) == PROVOLATILE_VOLATILE`). -/
structure PlannerCatalog where
  get_commutator : Nat → Option Nat
  get_opcode : Nat → Nat
  get_vector_const_predicate : Nat → Bool
  func_volatile : Nat → Bool

/-- Embedding of `is_not_runtime_constant_walker`: `Var`, `PlaceHolderVar`
and `Param` nodes are not runtime constants; otherwise the node fails if
it contains a volatile function (`check_functions_in_node` inspects the
function of the node itself) or if some child fails the walk. -/
def is_not_runtime_constant_walker (cat : PlannerCatalog) : Node → Bool
  | .var _ _ => true
  | .placeHolderVar => true
  | .param => true
  | .const _ _ => false
  | .opExpr opno args =>
      cat.func_volatile (cat.get_opcode opno) ||
        args.attach.any fun a => is_not_runtime_constant_walker cat a.1
  | .funcExpr funcid args =>
      cat.func_volatile funcid ||
        args.attach.any fun a => is_not_runtime_constant_walker cat a.1
decreasing_by
  all_goals
    simp_wf
    have h := List.sizeOf_lt_of_mem a.2
    omega

/-- Embedding of `is_not_runtime_constant`. -/
def is_not_runtime_constant (cat : PlannerCatalog) (n : Node) : Bool :=
  is_not_runtime_constant_walker cat n

/-- The straight-line tail of `make_vectorized_qual` after the optional
commutation: the left operand must be a `Var` over a column with bulk
decompression support, the right operand a runtime constant, and the
operator function must be in the vector-predicate registry. -/
def make_vectorized_qual_checks (cat : PlannerCatalog) (bulk : Int → Bool)
    (opno : Nat) (lhs rhs : Node) : Option Node :=
  match lhs with
  | .var vn attno =>
    if is_not_runtime_constant cat rhs then none
    else if bulk attno = false then none
    else if cat.get_vector_const_predicate (cat.get_opcode opno) then
      some (.opExpr opno [.var vn attno, rhs])
    else none
  | _ => none

/-- Embedding of `make_vectorized_qual`: only binary `OpExpr` quals are
candidates; if the second argument is a `Var` the operator is commuted
when a commutator is registered (swapping the arguments), and then the
`Var op Const` checks run. -/
def make_vectorized_qual (cat : PlannerCatalog) (bulk : Int → Bool)
    (qual : Node) : Option Node :=
  match qual with
  | .opExpr opno args =>
    match args with
    | [arg1, arg2] =>
      if arg2.isVar then
        match cat.get_commutator opno with
        | some comm => make_vectorized_qual_checks cat bulk comm arg2 arg1
        | none => make_vectorized_qual_checks cat bulk opno arg1 arg2
      else make_vectorized_qual_checks cat bulk opno arg1 arg2
    | _ => none
  | _ => none

/-- Embedding of `find_vectorized_quals`: partition the qual list into
the vectorized quals (as returned by `make_vectorized_qual`) and the
remaining non-vectorized quals. -/
def find_vectorized_quals (cat : PlannerCatalog) (bulk : Int → Bool)
    (qual_list : List Node) : List Node × List Node :=
  qual_list.foldl
    (fun acc q =>
      match make_vectorized_qual cat bulk q with
      | some vq => (acc.1 ++ [vq], acc.2)
      | none => (acc.1, acc.2 ++ [q]))
    ([], [])

/-- The specification's characterization of a vectorizable qualifier:
a binary operator where, after optional commutation, the left operand
is a `Var` over a bulk-decompressible column, the right operand is a
runtime constant, and the operator (respectively its registered
commutator when the `Var` is on the right) is in the vector-predicate
registry. -/
def vectorized_qual_spec (cat : PlannerCatalog) (bulk : Int → Bool)
    (q : Node) : Prop :=
  ∃ opno a b, q = .opExpr opno [a, b] ∧
    ((∃ vn attno, a = .var vn attno ∧ b.isVar = false ∧
        is_not_runtime_constant cat b = false ∧ bulk attno = true ∧
        cat.get_vector_const_predicate (cat.get_opcode opno) = true) ∨
     (∃ vn attno comm, b = .var vn attno ∧
        cat.get_commutator opno = some comm ∧
        is_not_runtime_constant cat a = false ∧ bulk attno = true ∧
        cat.get_vector_const_predicate (cat.get_opcode comm) = true))

@[simp]
theorem isVar_var (vn : Nat) (attno : Int) : (Node.var vn attno).isVar = true := rfl

@[simp]
theorem isVar_const (b v : Bool) : (Node.const b v).isVar = false := rfl

@[simp]
theorem isVar_param : (Node.param).isVar = false := rfl

@[simp]
theorem isVar_placeHolderVar : (Node.placeHolderVar).isVar = false := rfl

@[simp]
theorem isVar_opExpr (opno : Nat) (args : List Node) :
    (Node.opExpr opno args).isVar = false := rfl

@[simp]
theorem isVar_funcExpr (funcid : Nat) (args : List Node) :
    (Node.funcExpr funcid args).isVar = false := rfl

@[simp]
theorem is_not_runtime_constant_var (cat : PlannerCatalog) (vn : Nat) (attno : Int) :
    is_not_runtime_constant cat (.var vn attno) = true := by
  simp [is_not_runtime_constant, is_not_runtime_constant_walker]

theorem make_vectorized_qual_checks_isSome (cat : PlannerCatalog) (bulk : Int → Bool)
    (opno : Nat) (lhs rhs : Node) :
    (make_vectorized_qual_checks cat bulk opno lhs rhs).isSome = true ↔
      ∃ vn attno, lhs = .var vn attno ∧ is_not_runtime_constant cat rhs = false ∧
        bulk attno = true ∧
        cat.get_vector_const_predicate (cat.get_opcode opno) = true := by
  cases lhs with
  | var vn attno =>
      constructor
      · intro h
        simp only [make_vectorized_qual_checks] at h
        split_ifs at h with h1 h2 h3
        · simp at h
        · simp at h
        · exact ⟨vn, attno, rfl, by simpa using h1, by simpa using h2, h3⟩
        · simp at h
      · rintro ⟨vn1, attno1, heq, hrt, hbulk, hpred⟩
        obtain ⟨rfl, rfl⟩ : vn = vn1 ∧ attno = attno1 := by
          simpa [Node.var.injEq] using heq
        simp [make_vectorized_qual_checks, hrt, hbulk, hpred]
  | const b v => simp [make_vectorized_qual_checks]
  | param => simp [make_vectorized_qual_checks]
  | placeHolderVar => simp [make_vectorized_qual_checks]
  | opExpr o a => simp [make_vectorized_qual_checks]
  | funcExpr f a => simp [make_vectorized_qual_checks]

/-- C2: the planner classifies a residual qual as vectorized iff it is a
binary operator expression where, after optional commutation, the left
operand is a `Var` over a bulk-decompressible column, the right operand
is a runtime constant, and the operator function is in the
vector-predicate registry; moreover a qual with the constant on the
left and no registered commutator for its operator is never
vectorized. -/
theorem make_vectorized_qual_characterization (cat : PlannerCatalog)
    (bulk : Int → Bool) (q : Node) :
    ((make_vectorized_qual cat bulk q).isSome = true ↔
        vectorized_qual_spec cat bulk q) ∧
    (∀ opno lhs vn attno, lhs.isVar = false → cat.get_commutator opno = none →
        make_vectorized_qual cat bulk (.opExpr opno [lhs, .var vn attno]) = none) := by
  constructor
  · cases q with
    | opExpr opno args =>
        match args with
        | [] => simp [make_vectorized_qual, vectorized_qual_spec]
        | [a] => simp [make_vectorized_qual, vectorized_qual_spec]
        | a :: b :: c :: rest => simp [make_vectorized_qual, vectorized_qual_spec]
        | [a, b] =>
          by_cases hb : b.isVar = true
          · obtain ⟨vn2, attno2, rfl⟩ : ∃ vn attno, b = .var vn attno := by
              cases b <;> first | exact ⟨_, _, rfl⟩ | simp at hb
            cases hcomm : cat.get_commutator opno with
            | some comm =>
                simp only [make_vectorized_qual, isVar_var, if_true, hcomm]
                rw [make_vectorized_qual_checks_isSome]
                constructor
                · rintro ⟨vn, attno, heq, hrt, hbulk, hpred⟩
                  refine ⟨opno, a, .var vn2 attno2, rfl, Or.inr ?_⟩
                  obtain ⟨rfl, rfl⟩ : vn2 = vn ∧ attno2 = attno := by
                    simpa [Node.var.injEq] using heq
                  exact ⟨vn2, attno2, comm, rfl, hcomm, hrt, hbulk, hpred⟩
                · rintro ⟨opno3, a3, b3, heq, hcase⟩
                  obtain ⟨rfl, rfl, rfl⟩ : opno = opno3 ∧ a = a3 ∧
                      Node.var vn2 attno2 = b3 := by
                    simpa [Node.opExpr.injEq] using heq
                  rcases hcase with ⟨vn, attno, ha, hbv, _, _, _⟩ | h2
                  · simp at hbv
                  · obtain ⟨vn, attno, comm3, hbeq, hc3, hrt, hbulk, hpred⟩ := h2
                    obtain ⟨rfl, rfl⟩ : vn2 = vn ∧ attno2 = attno := by
                      simpa [Node.var.injEq] using hbeq
                    rw [hcomm] at hc3
                    obtain rfl : comm = comm3 := by simpa using hc3
                    exact ⟨vn2, attno2, rfl, hrt, hbulk, hpred⟩
            | none =>
                simp only [make_vectorized_qual, isVar_var, if_true, hcomm]
                rw [make_vectorized_qual_checks_isSome]
                constructor
                · rintro ⟨vn, attno, rfl, hrt, _, _⟩
                  simp [is_not_runtime_constant_var] at hrt
                · rintro ⟨opno3, a3, b3, heq, hcase⟩
                  obtain ⟨rfl, rfl, rfl⟩ : opno = opno3 ∧ a = a3 ∧
                      Node.var vn2 attno2 = b3 := by
                    simpa [Node.opExpr.injEq] using heq
                  rcases hcase with ⟨vn, attno, ha, hbv, _, _, _⟩ | h2
                  · simp at hbv
                  · obtain ⟨vn, attno, comm3, hbeq, hc3, _, _, _⟩ := h2
                    rw [hcomm] at hc3
                    simp at hc3
          · simp only [Bool.not_eq_true] at hb
            simp only [make_vectorized_qual, hb, Bool.false_eq_true, if_false]
            rw [make_vectorized_qual_checks_isSome]
            constructor
            · rintro ⟨vn, attno, rfl, hrt, hbulk, hpred⟩
              exact ⟨opno, .var vn attno, b, rfl,
                Or.inl ⟨vn, attno, rfl, hb, hrt, hbulk, hpred⟩⟩
            · rintro ⟨opno3, a3, b3, heq, hcase⟩
              obtain ⟨rfl, rfl, rfl⟩ : opno = opno3 ∧ a = a3 ∧ b = b3 := by
                simpa [Node.opExpr.injEq] using heq
              rcases hcase with ⟨vn, attno, ha, _, hrt, hbulk, hpred⟩ | h2
              · exact ⟨vn, attno, ha, hrt, hbulk, hpred⟩
              · obtain ⟨vn, attno, comm3, hbeq, _, _, _, _⟩ := h2
                rw [hbeq] at hb
                simp at hb
    | var vn attno => simp [make_vectorized_qual, vectorized_qual_spec]
    | const b v => simp [make_vectorized_qual, vectorized_qual_spec]
    | param => simp [make_vectorized_qual, vectorized_qual_spec]
    | placeHolderVar => simp [make_vectorized_qual, vectorized_qual_spec]
    | funcExpr f a => simp [make_vectorized_qual, vectorized_qual_spec]
  · intro opno lhs vn attno hlhs hcomm
    simp only [make_vectorized_qual, isVar_var, if_true, hcomm]
    cases lhs <;> simp_all [make_vectorized_qual_checks]

/-- A concrete planner catalog with no registered commutators, used by
witness instantiations. -/
def noCommutatorCatalog : PlannerCatalog :=
  ⟨fun _ => none, fun o => o, fun _ => true, fun _ => false⟩

/-- Witness for C2: a qual of the shape `Const op Var` whose operator
has no registered commutator is not vectorized. -/
theorem make_vectorized_qual_characterization_witness :
    make_vectorized_qual noCommutatorCatalog (fun _ => true)
      (.opExpr 5 [.const false false, .var 1 1]) = none :=
  (make_vectorized_qual_characterization noCommutatorCatalog (fun _ => true)
      (.opExpr 5 [.const false false, .var 1 1])).2
    5 (.const false false) 1 1 rfl rfl

/-- Planner flags feeding the `enable_bulk_decompression` computation in
`decompress_chunk_plan_create`. -/
structure PlanFlags where
  batch_sorted_merge : Bool
  guc_enable_bulk_decompression : Bool
  have_bulk_decompression_columns : Bool

/-- Embedding of the `enable_bulk_decompression` computation:
`!dcpath->batch_sorted_merge && ts_guc_enable_bulk_decompression &&
dcpath->have_bulk_decompression_columns`. -/
def plan_enable_bulk_decompression (f : PlanFlags) : Bool :=
  !f.batch_sorted_merge && f.guc_enable_bulk_decompression &&
    f.have_bulk_decompression_columns

/-- Embedding of the vectorized-qual split in
`decompress_chunk_plan_create`: the quals are partitioned by
`find_vectorized_quals` only when bulk decompression is enabled,
otherwise the vectorized list stays empty and all quals remain in
`scan.plan.qual`.  Returns (vectorized quals, remaining plan quals). -/
def plan_vectorized_quals (cat : PlannerCatalog) (bulk : Int → Bool)
    (f : PlanFlags) (scan_quals : List Node) : List Node × List Node :=
  if plan_enable_bulk_decompression f then
    find_vectorized_quals cat bulk scan_quals
  else ([], scan_quals)

/-- The two batch queue implementations of the executor. -/
inductive BatchQueueKind where
  | fifo
  | heap
deriving DecidableEq

/-- Embedding of the queue choice in `decompress_chunk_begin`: the heap
queue is used exactly for batch sorted merge, the one-element FIFO
otherwise. -/
def choose_batch_queue (batch_sorted_merge : Bool) : BatchQueueKind :=
  if batch_sorted_merge then .heap else .fifo

/-- C10: whenever the operator uses the batch sorted merge (heap queue),
bulk decompression is disabled and the planner classifies no qual as
vectorized, so vectorized quals exist only in FIFO-queue operators. -/
theorem heap_queue_has_no_vectorized_quals (cat : PlannerCatalog)
    (bulk : Int → Bool) (f : PlanFlags) (scan_quals : List Node)
    (h : choose_batch_queue f.batch_sorted_merge = .heap) :
    plan_enable_bulk_decompression f = false ∧
    (plan_vectorized_quals cat bulk f scan_quals).1 = [] ∧
    (plan_vectorized_quals cat bulk f scan_quals).2 = scan_quals := by
  have hbsm : f.batch_sorted_merge = true := by
    by_contra hc
    simp only [Bool.not_eq_true] at hc
    simp [choose_batch_queue, hc] at h
  have henable : plan_enable_bulk_decompression f = false := by
    simp [plan_enable_bulk_decompression, hbsm]
  refine ⟨henable, ?_, ?_⟩ <;> simp [plan_vectorized_quals, henable]

/-- Witness for C10 at a concrete operator configuration. -/
theorem heap_queue_has_no_vectorized_quals_witness :
    plan_enable_bulk_decompression ⟨true, true, true⟩ = false ∧
    (plan_vectorized_quals noCommutatorCatalog (fun _ => true) ⟨true, true, true⟩
        [Node.opExpr 5 [.var 1 1, .const false true]]).1 = [] ∧
    (plan_vectorized_quals noCommutatorCatalog (fun _ => true) ⟨true, true, true⟩
        [Node.opExpr 5 [.var 1 1, .const false true]]).2 =
      [Node.opExpr 5 [.var 1 1, .const false true]] :=
  heap_queue_has_no_vectorized_quals noCommutatorCatalog (fun _ => true)
    ⟨true, true, true⟩ [Node.opExpr 5 [.var 1 1, .const false true]] rfl

/-- `FirstLowInvalidHeapAttributeNumber` from PostgreSQL `sysattr.h`. -/
def FirstLowInvalidHeapAttributeNumber : Int := -7

/-- `TableOidAttributeNumber` from PostgreSQL `sysattr.h`. -/
def TableOidAttributeNumber : Int := -6

/-- Sentinel destination attno of the count metadata column. -/
def DECOMPRESS_CHUNK_COUNT_ID : Int := -1

/-- Sentinel destination attno of the sequence number metadata column. -/
def DECOMPRESS_CHUNK_SEQUENCE_NUM_ID : Int := -2

/-- Bitmapsets are modelled as lists of bit positions (attno offset by
`FirstLowInvalidHeapAttributeNumber`, as in the C code). -/
def bms_is_member (x : Int) (s : List Int) : Bool := decide (x ∈ s)

/-- Add a member to a bitmapset. -/
def bms_add_member (s : List Int) (x : Int) : List Int :=
  if x ∈ s then s else x :: s

/-- Smallest member of the set greater than `prev`, or `-2` when there
is none, as PostgreSQL's `bms_next_member`. -/
def bms_next_member (s : List Int) (prev : Int) : Int :=
  match s with
  | [] => -2
  | x :: rest =>
    let m := bms_next_member rest prev
    if x > prev && (m == -2 || x < m) then x else m

theorem mem_bms_add_member (s : List Int) (x y : Int) :
    y ∈ bms_add_member s x ↔ y ∈ s ∨ y = x := by
  unfold bms_add_member
  split_ifs with h
  · constructor
    · exact fun hy => Or.inl hy
    · rintro (hy | rfl)
      · exact hy
      · exact h
  · simp [or_comm]

theorem bms_next_member_none (s : List Int) (prev : Int)
    (h : ∀ x ∈ s, ¬ x > prev) : bms_next_member s prev = -2 := by
  induction s with
  | nil => rfl
  | cons x rest ih =>
      have hx : ¬ x > prev := h x (List.mem_cons_self x rest)
      have hrest := ih (fun y hy => h y (List.mem_cons_of_mem x hy))
      simp [bms_next_member, hrest, hx]

/-- Planner errors raised by `build_decompression_map` and its callees. -/
inductive PlanError where
  | unsupportedSystemColumn
  | nonVarTargetEntry
  | wholeRowVar
  | columnNotFound
  | missingCountColumn
  | missingSequenceColumn
deriving DecidableEq

/-- Embedding of `check_for_system_columns`: any selected system column
other than `tableoid` is rejected. -/
def check_for_system_columns (attrs_used : List Int) : Except PlanError Unit :=
  let bit := bms_next_member attrs_used (-1)
  if bit > 0 && bit + FirstLowInvalidHeapAttributeNumber < 0 then
    let bit2 :=
      if bit = TableOidAttributeNumber - FirstLowInvalidHeapAttributeNumber
      then bms_next_member attrs_used bit else bit
    if bit2 > 0 && bit2 + FirstLowInvalidHeapAttributeNumber < 0 then
      .error .unsupportedSystemColumn
    else .ok ()
  else .ok ()

/-- The compression catalog entry of one compressed-chunk column
(`FormData_hypertable_compression` plus the catalog lookups the code
performs on it): the segmentby index, whether
`tsl_get_decompress_all_function(fd->algo_id)` is non-NULL, and the
attno of the column in the uncompressed chunk. -/
structure CompressionFd where
  segmentby_column_index : Int
  algo_has_bulk_function : Bool
  chunk_attno : Int

/-- Metadata column names distinguished by `build_decompression_map`. -/
inductive MetadataName where
  | countName
  | sequenceNumName
  | minMaxName
deriving DecidableEq

/-- Catalog information of one column of the compressed chunk: its
compression info (`none` for metadata columns) and, for metadata
columns, which metadata column it is. -/
structure CompressedColumn where
  compression_info : Option CompressionFd
  metadata_name : MetadataName

/-- One entry of the compressed scan targetlist, as inspected by
`build_decompression_map`: a `Var` with its compressed-chunk attno, or
some other expression (which is a hard error). -/
inductive TargetEntryModel where
  | varEntry (compressed_attno : Int)
  | nonVarEntry

/-- Intermediate state of the `build_decompression_map` loop.  The
`vectorized_aggregation_column` side list (only built when vectorized
aggregation was chosen, from the single parent target var) is modelled
separately as an executor input and not produced here. -/
structure MapState where
  missing_count : Bool
  missing_sequence : Bool
  chunk_attrs_found : List Int
  dmap : List Int
  seg : List Bool
  bulk : List Bool
  have_bulk : Bool

/-- Result of `build_decompression_map`: the parallel lists stored in
the path. -/
structure DecompressionMapResult where
  decompression_map : List Int
  is_segmentby_column : List Bool
  bulk_decompression_column : List Bool
  have_bulk_decompression_columns : Bool

/-- State update of the `build_decompression_map` loop for a normal
(non-metadata) column: the destination attno is the uncompressed chunk
attno when the column is needed (directly or through a whole-row var)
and `0` otherwise, and bulk decompression is possible when the column
is output and its algorithm has a decompress-all function. -/
def process_entry_compressed (chunk_attrs_needed : List Int) (st : MapState)
    (fd : CompressionFd) : MapState :=
  let whole_row :=
    bms_is_member (0 - FirstLowInvalidHeapAttributeNumber) chunk_attrs_needed
  let needed :=
    bms_is_member (fd.chunk_attno - FirstLowInvalidHeapAttributeNumber)
      chunk_attrs_needed
  let dest : Int := if whole_row || needed then fd.chunk_attno else 0
  let found :=
    if whole_row || needed then
      bms_add_member st.chunk_attrs_found
        (fd.chunk_attno - FirstLowInvalidHeapAttributeNumber)
    else st.chunk_attrs_found
  let bulk_ok := decide (dest > 0) && fd.algo_has_bulk_function
  { st with
    chunk_attrs_found := found
    dmap := st.dmap ++ [dest]
    seg := st.seg ++ [decide (fd.segmentby_column_index ≠ 0)]
    bulk := st.bulk ++ [bulk_ok]
    have_bulk := st.have_bulk || bulk_ok }

/-- State update of the `build_decompression_map` loop for a metadata
column: the count column and (when sequence numbers are needed) the
sequence column get their sentinel destination attnos and clear the
corresponding `missing_*` flag, min/max metadata columns get
destination `0`. -/
def process_entry_metadata (needs_sequence_num : Bool) (st : MapState)
    (col : CompressedColumn) : MapState :=
  let is_count := col.metadata_name = .countName
  let is_seq := needs_sequence_num ∧ col.metadata_name = .sequenceNumName
  let dest : Int :=
    if is_count then DECOMPRESS_CHUNK_COUNT_ID
    else if is_seq then DECOMPRESS_CHUNK_SEQUENCE_NUM_ID
    else 0
  { st with
    missing_count := st.missing_count && !(decide is_count)
    missing_sequence := st.missing_sequence && !(decide is_seq)
    dmap := st.dmap ++ [dest]
    seg := st.seg ++ [false]
    bulk := st.bulk ++ [false] }

/-- The per-targetlist-entry loop of `build_decompression_map`. -/
def process_tlist (catalog : Int → CompressedColumn) (needs_sequence_num : Bool)
    (chunk_attrs_needed : List Int) :
    List TargetEntryModel → MapState → Except PlanError MapState
  | [], st => .ok st
  | e :: rest, st =>
    match e with
    | .nonVarEntry => .error .nonVarTargetEntry
    | .varEntry attno =>
      if attno = 0 then .error .wholeRowVar
      else
        match (catalog attno).compression_info with
        | some fd =>
          process_tlist catalog needs_sequence_num chunk_attrs_needed rest
            (process_entry_compressed chunk_attrs_needed st fd)
        | none =>
          process_tlist catalog needs_sequence_num chunk_attrs_needed rest
            (process_entry_metadata needs_sequence_num st (catalog attno))

theorem process_tlist_cons_some (catalog : Int → CompressedColumn) (needs : Bool)
    (needed : List Int) (a : Int) (rest : List TargetEntryModel) (st : MapState)
    (fd : CompressionFd) (ha : ¬ a = 0)
    (hc : (catalog a).compression_info = some fd) :
    process_tlist catalog needs needed (.varEntry a :: rest) st =
      process_tlist catalog needs needed rest
        (process_entry_compressed needed st fd) := by
  simp only [process_tlist, if_neg ha, hc]

theorem process_tlist_cons_none (catalog : Int → CompressedColumn) (needs : Bool)
    (needed : List Int) (a : Int) (rest : List TargetEntryModel) (st : MapState)
    (ha : ¬ a = 0) (hc : (catalog a).compression_info = none) :
    process_tlist catalog needs needed (.varEntry a :: rest) st =
      process_tlist catalog needs needed rest
        (process_entry_metadata needs st (catalog a)) := by
  simp only [process_tlist, if_neg ha, hc]

/-- Initial loop state of `build_decompression_map`: both metadata
columns are missing (the sequence one only when required), and the
`tableoid` system column counts as found when it is needed. -/
def initial_map_state (needs_sequence_num : Bool)
    (chunk_attrs_needed : List Int) : MapState :=
  ⟨true, needs_sequence_num,
    if bms_is_member (TableOidAttributeNumber - FirstLowInvalidHeapAttributeNumber)
        chunk_attrs_needed then
      bms_add_member []
        (TableOidAttributeNumber - FirstLowInvalidHeapAttributeNumber)
    else [],
    [], [], [], false⟩

/-- Embedding of `build_decompression_map`: checks system columns, walks
the compressed scan targetlist and then verifies that every needed
output column, the count metadata column and (when required) the
sequence metadata column were found. -/
def build_decompression_map (catalog : Int → CompressedColumn)
    (needs_sequence_num : Bool) (selectedCols chunk_attrs_needed : List Int)
    (scan_tlist : List TargetEntryModel) :
    Except PlanError DecompressionMapResult :=
  match check_for_system_columns selectedCols with
  | .error e => .error e
  | .ok _ =>
    match process_tlist catalog needs_sequence_num chunk_attrs_needed scan_tlist
        (initial_map_state needs_sequence_num chunk_attrs_needed) with
    | .error e => .error e
    | .ok st =>
      let attrs_not_found :=
        chunk_attrs_needed.filter fun b => !(bms_is_member b st.chunk_attrs_found)
      if bms_next_member attrs_not_found (0 - FirstLowInvalidHeapAttributeNumber) ≥ 0
      then .error .columnNotFound
      else if st.missing_count then .error .missingCountColumn
      else if st.missing_sequence then .error .missingSequenceColumn
      else .ok ⟨st.dmap, st.seg, st.bulk, st.have_bulk⟩

/-- Whether an `Except` result is a success. -/
def exceptOk {ε α : Type} : Except ε α → Bool
  | .ok _ => true
  | .error _ => false

/-- A targetlist entry that is the count metadata column. -/
def is_count_entry (catalog : Int → CompressedColumn) : TargetEntryModel → Bool
  | .varEntry a =>
      (catalog a).compression_info.isNone &&
        decide ((catalog a).metadata_name = .countName)
  | .nonVarEntry => false

/-- A targetlist entry that is the sequence number metadata column. -/
def is_sequence_entry (catalog : Int → CompressedColumn) : TargetEntryModel → Bool
  | .varEntry a =>
      (catalog a).compression_info.isNone &&
        decide ((catalog a).metadata_name = .sequenceNumName)
  | .nonVarEntry => false

theorem and_not_and_fold (a n x y : Bool) :
    ((a && !(n && x)) && !(n && y)) = (a && !(n && (x || y))) := by
  cases a <;> cases n <;> cases x <;> cases y <;> rfl

/-- How the two `missing_*` flags evolve over the targetlist loop. -/
theorem process_tlist_flags (catalog : Int → CompressedColumn) (needs : Bool)
    (needed : List Int) :
    ∀ (entries : List TargetEntryModel) (st st' : MapState),
      process_tlist catalog needs needed entries st = .ok st' →
      st'.missing_count =
        (st.missing_count && !(entries.any (is_count_entry catalog))) ∧
      st'.missing_sequence =
        (st.missing_sequence &&
          !(needs && entries.any (is_sequence_entry catalog))) := by
  intro entries
  induction entries with
  | nil =>
      intro st st' h
      simp only [process_tlist] at h
      obtain rfl : st = st' := by simpa using h
      simp
  | cons e rest ih =>
      intro st st' h
      cases e with
      | nonVarEntry => simp [process_tlist] at h
      | varEntry a =>
          by_cases ha : a = 0
          · simp [process_tlist, if_pos ha] at h
          · cases hc : (catalog a).compression_info with
            | some fd =>
                rw [process_tlist_cons_some catalog needs needed a rest st fd ha hc] at h
                obtain ⟨h1, h2⟩ := ih _ _ h
                constructor
                · rw [h1]
                  simp [List.any_cons, is_count_entry, hc, process_entry_compressed]
                · rw [h2]
                  simp [List.any_cons, is_sequence_entry, hc, process_entry_compressed]
            | none =>
                rw [process_tlist_cons_none catalog needs needed a rest st ha hc] at h
                obtain ⟨h1, h2⟩ := ih _ _ h
                constructor
                · rw [h1]
                  simp only [List.any_cons, process_entry_metadata]
                  rw [show is_count_entry catalog (.varEntry a) =
                        decide ((catalog a).metadata_name = .countName) by
                      simp [is_count_entry, hc]]
                  exact and_not_and_fold st.missing_count true _ _
                · rw [h2]
                  simp only [List.any_cons, process_entry_metadata]
                  rw [show is_sequence_entry catalog (.varEntry a) =
                        decide ((catalog a).metadata_name = .sequenceNumName) by
                      simp [is_sequence_entry, hc]]
                  rw [show (decide (needs = true ∧
                        (catalog a).metadata_name = .sequenceNumName)) =
                      (needs && decide ((catalog a).metadata_name = .sequenceNumName)) by
                    cases needs <;> simp]
                  exact and_not_and_fold st.missing_sequence needs _ _

/-- The loop of `build_decompression_map` succeeds on well-formed
targetlists, the found-attrs set grows monotonically, and every needed
column that some entry maps to ends up in the found-attrs set. -/
theorem process_tlist_success (catalog : Int → CompressedColumn) (needs : Bool)
    (needed : List Int) :
    ∀ (entries : List TargetEntryModel) (st : MapState),
      (∀ e ∈ entries, ∃ a, e = .varEntry a ∧ a ≠ 0) →
      ∃ st', process_tlist catalog needs needed entries st = .ok st' ∧
        (∀ b, b ∈ st.chunk_attrs_found → b ∈ st'.chunk_attrs_found) ∧
        (∀ b, (∃ e ∈ entries, ∃ a fd, e = .varEntry a ∧
              (catalog a).compression_info = some fd ∧
              fd.chunk_attno - FirstLowInvalidHeapAttributeNumber = b ∧
              (bms_is_member (0 - FirstLowInvalidHeapAttributeNumber) needed = true ∨
               bms_is_member b needed = true)) →
          b ∈ st'.chunk_attrs_found) := by
  intro entries
  induction entries with
  | nil =>
      intro st _
      refine ⟨st, rfl, fun b hb => hb, ?_⟩
      rintro b ⟨e, he, _⟩
      simp at he
  | cons e rest ih =>
      intro st hvalid
      obtain ⟨a, rfl, ha⟩ := hvalid _ (List.mem_cons_self e rest)
      have hrest : ∀ e' ∈ rest, ∃ a, e' = .varEntry a ∧ a ≠ 0 :=
        fun e' he' => hvalid e' (List.mem_cons_of_mem _ he')
      cases hc : (catalog a).compression_info with
      | some fd =>
          obtain ⟨st', hok, hmono, hcover⟩ :=
            ih (process_entry_compressed needed st fd) hrest
          refine ⟨st', ?_, ?_, ?_⟩
          · rw [process_tlist_cons_some catalog needs needed a rest st fd ha hc]
            exact hok
          · intro b hb
            apply hmono
            simp only [process_entry_compressed]
            split_ifs with hneed
            · exact (mem_bms_add_member _ _ _).mpr (Or.inl hb)
            · exact hb
          · rintro b ⟨e', he', a', fd', hee, hcc, hbb, hdis⟩
            rcases List.mem_cons.mp he' with rfl | he2
            · obtain rfl : a = a' := by
                cases hee
                rfl
              rw [hc] at hcc
              obtain rfl : fd = fd' := by
                cases hcc
                rfl
              apply hmono
              simp only [process_entry_compressed]
              have hneed : (bms_is_member (0 - FirstLowInvalidHeapAttributeNumber)
                  needed ||
                bms_is_member (fd.chunk_attno - FirstLowInvalidHeapAttributeNumber)
                  needed) = true := by
                rw [Bool.or_eq_true, hbb]
                exact hdis
              rw [if_pos hneed]
              exact (mem_bms_add_member _ _ _).mpr (Or.inr hbb.symm)
            · exact hcover b ⟨e', he2, a', fd', hee, hcc, hbb, hdis⟩
      | none =>
          obtain ⟨st', hok, hmono, hcover⟩ :=
            ih (process_entry_metadata needs st (catalog a)) hrest
          refine ⟨st', ?_, ?_, ?_⟩
          · rw [process_tlist_cons_none catalog needs needed a rest st ha hc]
            exact hok
          · intro b hb
            exact hmono b hb
          · rintro b ⟨e', he', a', fd', hee, hcc, hbb, hdis⟩
            rcases List.mem_cons.mp he' with rfl | he2
            · obtain rfl : a = a' := by
                cases hee
                rfl
              rw [hc] at hcc
              simp at hcc
            · exact hcover b ⟨e', he2, a', fd', hee, hcc, hbb, hdis⟩

/-- C5: building the decompression map fails with a hard error whenever
the compressed scan targetlist lacks the count metadata column, and
whenever sequence numbers are required but the sequence metadata column
is absent (first conjunct, as a contrapositive: a successful build
implies both columns were present); and when both are present, the
targetlist is well-formed, the system-column check passes and every
needed output attribute is produced by some targetlist entry, map
construction succeeds (second conjunct). -/
theorem build_decompression_map_metadata_contract
    (catalog : Int → CompressedColumn) (needs_sequence_num : Bool)
    (selectedCols chunk_attrs_needed : List Int)
    (scan_tlist : List TargetEntryModel) :
    (∀ r, build_decompression_map catalog needs_sequence_num selectedCols
          chunk_attrs_needed scan_tlist = .ok r →
        scan_tlist.any (is_count_entry catalog) = true ∧
        (needs_sequence_num = true →
          scan_tlist.any (is_sequence_entry catalog) = true)) ∧
    (check_for_system_columns selectedCols = .ok () →
      (∀ e ∈ scan_tlist, ∃ a, e = .varEntry a ∧ a ≠ 0) →
      scan_tlist.any (is_count_entry catalog) = true →
      (needs_sequence_num = true →
        scan_tlist.any (is_sequence_entry catalog) = true) →
      (∀ b ∈ chunk_attrs_needed, b + FirstLowInvalidHeapAttributeNumber > 0 →
        ∃ e ∈ scan_tlist, ∃ a fd, e = .varEntry a ∧
          (catalog a).compression_info = some fd ∧
          fd.chunk_attno - FirstLowInvalidHeapAttributeNumber = b) →
      exceptOk (build_decompression_map catalog needs_sequence_num selectedCols
          chunk_attrs_needed scan_tlist) = true) := by
  constructor
  · intro r h
    simp only [build_decompression_map] at h
    split at h
    · simp at h
    · split at h
      · simp at h
      · rename_i st hproc
        obtain ⟨h1, h2⟩ := process_tlist_flags catalog needs_sequence_num
          chunk_attrs_needed scan_tlist _ st hproc
        split_ifs at h with hb hmc hms
        all_goals simp at h
        constructor
        · by_contra hx
          simp only [Bool.not_eq_true] at hx
          have hmc' : st.missing_count = false := by simpa using hmc
          rw [hmc', hx] at h1
          simp [initial_map_state] at h1
        · intro hneeds
          by_contra hx
          simp only [Bool.not_eq_true] at hx
          have hms' : st.missing_sequence = false := by simpa using hms
          rw [hms', hx, hneeds] at h2
          simp [initial_map_state] at h2
  · intro hsys hvalid hcount hseq hcover
    simp only [build_decompression_map, hsys]
    obtain ⟨st', hok, hmono, hcover'⟩ :=
      process_tlist_success catalog needs_sequence_num chunk_attrs_needed
        scan_tlist (initial_map_state needs_sequence_num chunk_attrs_needed) hvalid
    rw [hok]
    obtain ⟨h1, h2⟩ := process_tlist_flags catalog needs_sequence_num
      chunk_attrs_needed scan_tlist _ st' hok
    have hmc : st'.missing_count = false := by
      rw [h1, hcount]
      simp
    have hms : st'.missing_sequence = false := by
      rw [h2]
      cases hn : needs_sequence_num with
      | false => simp [initial_map_state]
      | true => simp [initial_map_state, hseq hn]
    have hcond : ¬ (0 ≤ bms_next_member
        (List.filter (fun b => !(bms_is_member b st'.chunk_attrs_found))
          chunk_attrs_needed) (-FirstLowInvalidHeapAttributeNumber)) := by
      have hbit : bms_next_member
          (List.filter (fun b => !(bms_is_member b st'.chunk_attrs_found))
            chunk_attrs_needed) (-FirstLowInvalidHeapAttributeNumber) = -2 := by
        apply bms_next_member_none
        intro x hx hgt
        obtain ⟨hxn, hxf⟩ := List.mem_filter.mp hx
        have hx7 : x + FirstLowInvalidHeapAttributeNumber > 0 := by
          simp only [FirstLowInvalidHeapAttributeNumber] at hgt ⊢
          omega
        obtain ⟨e, he, a, fd, hee, hcc, hbb⟩ := hcover x hxn hx7
        have hxin : x ∈ st'.chunk_attrs_found :=
          hcover' x ⟨e, he, a, fd, hee, hcc, hbb,
            Or.inr (by simp [bms_is_member, hxn])⟩
        simp [bms_is_member, hxin] at hxf
      rw [hbit]
      decide
    simp [hmc, hms, hcond, exceptOk]

/-- A concrete compressed-chunk catalog for the C5 witness: column 1 is
a normal compressed column mapping to chunk attno 1, column 2 is the
count metadata column. -/
def mapWitnessCatalog : Int → CompressedColumn := fun a =>
  if a = 1 then ⟨some ⟨0, true, 1⟩, .minMaxName⟩
  else if a = 2 then ⟨none, .countName⟩
  else ⟨none, .minMaxName⟩

/-- Witness for C5: the map construction succeeds on a well-formed
targetlist holding the needed column and the count column. -/
theorem build_decompression_map_metadata_contract_witness :
    exceptOk (build_decompression_map mapWitnessCatalog false [] [8]
      [.varEntry 1, .varEntry 2]) = true :=
  (build_decompression_map_metadata_contract mapWitnessCatalog false [] [8]
      [.varEntry 1, .varEntry 2]).2
    rfl
    (by
      intro e he
      fin_cases he
      · exact ⟨1, rfl, by decide⟩
      · exact ⟨2, rfl, by decide⟩)
    rfl
    (fun h => nomatch h)
    (by
      intro b hb hgt
      fin_cases hb
      exact ⟨.varEntry 1, List.mem_cons_self _ _, 1, ⟨0, true, 1⟩, rfl, rfl,
        by decide⟩)

/-- Kinds of column descriptors built by `decompress_chunk_begin`. -/
inductive ColumnType where
  | compressed_col
  | segmentby_col
  | count_col
  | sequence_num_col
deriving DecidableEq

/-- One `DecompressChunkColumnDescription` of the executor. -/
structure ColumnDescription where
  compressed_scan_attno : Nat
  output_attno : Int
  bulk_decompression_supported : Bool
  typid : Int
  value_bytes : Int
  ctype : ColumnType
deriving DecidableEq

/-- Runtime errors raised by the executor code under consideration. -/
inductive ExecError where
  | invalidColumnAttno
  | castNodeFailure
  | ensureConstFailure
  | unexpectedNullCompressedValue
  | numericValueOutOfRange
  | aggNotSupported
  | unsupportedColumnType
deriving DecidableEq

/-- Catalog/tuple-descriptor context of `decompress_chunk_begin`:
whether vectorized aggregation is on, the per-compressed-index entry of
the `vectorized_aggregation_column` list (`-1` when the column is not
the aggregated one), the scan tuple descriptor type of an output attno,
and `get_typlen`. -/
structure ExecColumnConfig where
  perform_vectorized_aggregation : Bool
  agg_typid : Nat → Int
  tupdesc_typid : Int → Int
  get_typlen : Int → Int

/-- The first loop of `decompress_chunk_begin`: count how many
decompressed columns there are in total and how many of them are
compressed (not skipped, positive output attno and not segmentby). -/
def count_decompressed_columns : List Int → List Bool → Nat × Nat
  | a :: as, s :: ss =>
    let rest := count_decompressed_columns as ss
    if a = 0 then rest
    else ((if 0 < a ∧ s = false then rest.1 + 1 else rest.1), rest.2 + 1)
  | _, _ => (0, 0)

/-- Build one `DecompressChunkColumnDescription` from the parallel-list
entries at one compressed scan position, as the second loop of
`decompress_chunk_begin` does.  For the vectorized-aggregation column
the type comes from the `vectorized_aggregation_column` list and
`value_bytes` stays zero-initialized; an unknown negative output attno
is a hard error. -/
def make_column_desc (cfg : ExecColumnConfig) (idx : Nat) (a : Int)
    (s b : Bool) : Except ExecError ColumnDescription :=
  if 0 < a then
    if cfg.perform_vectorized_aggregation ∧ cfg.agg_typid idx ≠ -1 then
      .ok ⟨idx + 1, a, b, cfg.agg_typid idx, 0,
        if s then .segmentby_col else .compressed_col⟩
    else
      .ok ⟨idx + 1, a, b, cfg.tupdesc_typid a,
        cfg.get_typlen (cfg.tupdesc_typid a),
        if s then .segmentby_col else .compressed_col⟩
  else if a = DECOMPRESS_CHUNK_COUNT_ID then
    .ok ⟨idx + 1, a, b, 0, 0, .count_col⟩
  else if a = DECOMPRESS_CHUNK_SEQUENCE_NUM_ID then
    .ok ⟨idx + 1, a, b, 0, 0, .sequence_num_col⟩
  else .error .invalidColumnAttno

/-- The second loop of `decompress_chunk_begin`, which fills compressed
columns from the front of the descriptor array and all other columns
from position `num_compressed` on; modelled by building the two
segments separately (the concatenation reproduces the array). -/
def build_template_columns_go (cfg : ExecColumnConfig) :
    Nat → List Int → List Bool → List Bool →
    Except ExecError (List ColumnDescription × List ColumnDescription)
  | _, [], _, _ => .ok ([], [])
  | idx, a :: as, s :: ss, b :: bs =>
    if a = 0 then build_template_columns_go cfg (idx + 1) as ss bs
    else
      match make_column_desc cfg idx a s b with
      | .error e => .error e
      | .ok col =>
        match build_template_columns_go cfg (idx + 1) as ss bs with
        | .error e => .error e
        | .ok parts =>
          if col.ctype = .compressed_col then .ok (col :: parts.1, parts.2)
          else .ok (parts.1, col :: parts.2)
  | _, _, _, _ => .ok ([], [])

/-- The full `template_columns` array: the dense compressed prefix
followed by the segmentby and metadata columns. -/
def template_columns (cfg : ExecColumnConfig) (map : List Int)
    (seg bulk : List Bool) : Except ExecError (List ColumnDescription) :=
  match build_template_columns_go cfg 0 map seg bulk with
  | .error e => .error e
  | .ok parts => .ok (parts.1 ++ parts.2)

theorem count_cons_zero (a : Int) (s : Bool) (as : List Int) (ss : List Bool)
    (ha : a = 0) :
    count_decompressed_columns (a :: as) (s :: ss) =
      count_decompressed_columns as ss := by
  simp [count_decompressed_columns, ha]

theorem make_column_desc_ctype (cfg : ExecColumnConfig) (idx : Nat) (a : Int)
    (s b : Bool) (col : ColumnDescription)
    (h : make_column_desc cfg idx a s b = .ok col) :
    (col.ctype = .compressed_col ↔ (0 < a ∧ s = false)) := by
  unfold make_column_desc at h
  by_cases h1 : 0 < a
  · rw [if_pos h1] at h
    by_cases h2 : cfg.perform_vectorized_aggregation = true ∧ cfg.agg_typid idx ≠ -1
    · rw [if_pos h2] at h
      obtain rfl : _ = col := by simpa using h
      cases s <;> simp_all
    · rw [if_neg h2] at h
      obtain rfl : _ = col := by simpa using h
      cases s <;> simp_all
  · rw [if_neg h1] at h
    by_cases h3 : a = DECOMPRESS_CHUNK_COUNT_ID
    · rw [if_pos h3] at h
      obtain rfl : _ = col := by simpa using h
      simp [h1]
    · rw [if_neg h3] at h
      by_cases h4 : a = DECOMPRESS_CHUNK_SEQUENCE_NUM_ID
      · rw [if_pos h4] at h
        obtain rfl : _ = col := by simpa using h
        simp [h1]
      · rw [if_neg h4] at h
        simp at h

theorem build_template_columns_go_spec (cfg : ExecColumnConfig) :
    ∀ (map : List Int) (seg bulk : List Bool) (idx : Nat)
      (A B : List ColumnDescription),
      map.length = seg.length → map.length = bulk.length →
      build_template_columns_go cfg idx map seg bulk = .ok (A, B) →
      A.length = (count_decompressed_columns map seg).1 ∧
      A.length + B.length = (count_decompressed_columns map seg).2 ∧
      (∀ c ∈ A, c.ctype = .compressed_col) ∧
      (∀ c ∈ B, c.ctype ≠ .compressed_col) := by
  intro map
  induction map with
  | nil =>
      intro seg bulk idx A B _ _ h
      simp only [build_template_columns_go] at h
      obtain ⟨rfl, rfl⟩ : ([] : List ColumnDescription) = A ∧
          ([] : List ColumnDescription) = B := by simpa using h
      simp [count_decompressed_columns]
  | cons a as ih =>
      intro seg bulk idx A B h1 h2 h
      cases seg with
      | nil => simp at h1
      | cons s ss =>
        cases bulk with
        | nil => simp at h2
        | cons b bs =>
          simp only [build_template_columns_go] at h
          by_cases ha0 : a = 0
          · rw [if_pos ha0] at h
            obtain ⟨hA, hAB, hAc, hBc⟩ := ih ss bs (idx + 1) A B
              (by simpa using h1) (by simpa using h2) h
            rw [count_cons_zero a s as ss ha0]
            exact ⟨hA, hAB, hAc, hBc⟩
          · rw [if_neg ha0] at h
            cases hmk : make_column_desc cfg idx a s b with
            | error e =>
                simp only [hmk] at h
                simp at h
            | ok col =>
              simp only [hmk] at h
              cases hgo : build_template_columns_go cfg (idx + 1) as ss bs with
              | error e =>
                  simp only [hgo] at h
                  simp at h
              | ok parts =>
                simp only [hgo] at h
                obtain ⟨cp, rp⟩ := parts
                obtain ⟨hA, hAB, hAc, hBc⟩ := ih ss bs (idx + 1) cp rp
                  (by simpa using h1) (by simpa using h2) hgo
                have hiff := make_column_desc_ctype cfg idx a s b col hmk
                have hcnt : count_decompressed_columns (a :: as) (s :: ss) =
                    ((if 0 < a ∧ s = false then
                        (count_decompressed_columns as ss).1 + 1
                      else (count_decompressed_columns as ss).1),
                      (count_decompressed_columns as ss).2 + 1) := by
                  simp [count_decompressed_columns, ha0]
                by_cases hct : col.ctype = .compressed_col
                · rw [if_pos hct] at h
                  obtain ⟨rfl, rfl⟩ : col :: cp = A ∧ rp = B := by simpa using h
                  have hpos : (0 < a ∧ s = false) := hiff.mp hct
                  rw [hcnt, if_pos hpos]
                  refine ⟨?_, ?_, ?_, hBc⟩
                  · simp [hA]
                  · simp only [List.length_cons]
                    omega
                  · intro c hc
                    rcases List.mem_cons.mp hc with rfl | hc2
                    · exact hct
                    · exact hAc c hc2
                · rw [if_neg hct] at h
                  obtain ⟨rfl, rfl⟩ : cp = A ∧ col :: rp = B := by simpa using h
                  have hpos : ¬ (0 < a ∧ s = false) := fun hx => hct (hiff.mpr hx)
                  rw [hcnt, if_neg hpos]
                  refine ⟨hA, ?_, hAc, ?_⟩
                  · simp only [List.length_cons]
                    omega
                  · intro c hc
                    rcases List.mem_cons.mp hc with rfl | hc2
                    · exact hct
                    · exact hBc c hc2

theorem append_get_iff {α : Type} (P : α → Prop) (A B : List α)
    (hA : ∀ c ∈ A, P c) (hB : ∀ c ∈ B, ¬ P c) :
    ∀ i (h : i < (A ++ B).length), (P ((A ++ B).get ⟨i, h⟩) ↔ i < A.length) := by
  induction A with
  | nil =>
      intro i h
      simp only [List.nil_append, List.length_nil]
      constructor
      · intro hp
        exact absurd hp (hB _ (List.get_mem _ _ _))
      · omega
  | cons x A' ih =>
      intro i h
      cases i with
      | zero =>
          constructor
          · intro _
            simp
          · intro _
            exact hA x (List.mem_cons_self _ _)
      | succ j =>
          have hA' : ∀ c ∈ A', P c := fun c hc => hA c (List.mem_cons_of_mem _ hc)
          have hj : j < (A' ++ B).length := by
            simp only [List.cons_append, List.length_cons] at h
            omega
          have hrec := ih hA' j hj
          show P ((A' ++ B).get ⟨j, hj⟩) ↔ j + 1 < (x :: A').length
          rw [hrec]
          simp only [List.length_cons]
          omega

/-- C7: after operator initialization the descriptor array holds
exactly the compressed (non-segmentby, non-metadata) columns in
positions `[0, num_compressed)` and all other (segmentby/metadata)
columns in positions `[num_compressed, num_total)`, for every
decompression map. -/
theorem template_columns_dense_layout (cfg : ExecColumnConfig)
    (map : List Int) (seg bulk : List Bool) (tc : List ColumnDescription)
    (h1 : map.length = seg.length) (h2 : map.length = bulk.length)
    (hok : template_columns cfg map seg bulk = .ok tc) :
    tc.length = (count_decompressed_columns map seg).2 ∧
    ∀ i (h : i < tc.length),
      ((tc.get ⟨i, h⟩).ctype = .compressed_col ↔
        i < (count_decompressed_columns map seg).1) := by
  unfold template_columns at hok
  cases hgo : build_template_columns_go cfg 0 map seg bulk with
  | error e => rw [hgo] at hok; simp at hok
  | ok parts =>
      rw [hgo] at hok
      obtain ⟨A, B⟩ := parts
      obtain rfl : A ++ B = tc := by simpa using hok
      obtain ⟨hA, hAB, hAc, hBc⟩ :=
        build_template_columns_go_spec cfg map seg bulk 0 A B h1 h2 hgo
      constructor
      · simpa [List.length_append, hA] using hAB
      · intro i h
        rw [← hA]
        exact append_get_iff (fun c => c.ctype = .compressed_col) A B hAc hBc i h

/-- A concrete executor column configuration for witnesses. -/
def execWitnessConfig : ExecColumnConfig :=
  ⟨false, fun _ => -1, fun _ => 23, fun _ => 4⟩

/-- Witness for C7 on a map with one compressed, one segmentby and one
count column. -/
theorem template_columns_dense_layout_witness :
    [(⟨1, 1, true, 23, 4, ColumnType.compressed_col⟩ : ColumnDescription),
     ⟨2, 2, false, 23, 4, .segmentby_col⟩,
     ⟨3, -1, false, 0, 0, .count_col⟩].length =
      (count_decompressed_columns [1, 2, -1] [false, true, false]).2 ∧
    ∀ i (h : i < [(⟨1, 1, true, 23, 4, ColumnType.compressed_col⟩ : ColumnDescription),
     ⟨2, 2, false, 23, 4, .segmentby_col⟩,
     ⟨3, -1, false, 0, 0, .count_col⟩].length),
      (([(⟨1, 1, true, 23, 4, ColumnType.compressed_col⟩ : ColumnDescription),
     ⟨2, 2, false, 23, 4, .segmentby_col⟩,
     ⟨3, -1, false, 0, 0, .count_col⟩].get ⟨i, h⟩).ctype = .compressed_col ↔
        i < (count_decompressed_columns [1, 2, -1] [false, true, false]).1) :=
  template_columns_dense_layout execWitnessConfig [1, 2, -1]
    [false, true, false] [true, false, false] _ rfl rfl rfl

/-- `ALLOCSET_DEFAULT_INITSIZE` from PostgreSQL `memutils.h` (8 kB). -/
def ALLOCSET_DEFAULT_INITSIZE : Int := 8 * 1024

/-- Compile-time constants entering the arena size computation:
`GLOBAL_MAX_ROWS_PER_COMPRESSION` (the spec's N_MAX, at most 1024) and
the 64-bit platform sizes of the `ArrowArray` struct and of a
pointer. -/
structure ArenaSizeParams where
  n_max : Int
  sizeof_arrow_array : Int
  sizeof_pointer : Int

/-- Embedding of the batch memory context size computation of
`decompress_chunk_begin`: starting from the default initial size, for
every bulk-decompressible column add `(N_MAX + 64) * value_bytes`, the
nulls-bitmap term `N_MAX / (64 * sizeof(uint64))` with
`sizeof(uint64) = 8` (the code divides by the element size instead of
multiplying), the `ArrowArray` struct with two buffer pointers, and
three pointers of context header overhead; then round up to a 4 KiB
multiple and clamp to 1 MiB. -/
def batch_memory_context_bytes (p : ArenaSizeParams)
    (enable_bulk_decompression : Bool) (tc : List ColumnDescription) : Int :=
  let bytes :=
    if enable_bulk_decompression then
      tc.foldl
        (fun acc col =>
          if col.bulk_decompression_supported then
            acc + (p.n_max + 64) * col.value_bytes
              + p.n_max / (64 * 8)
              + (p.sizeof_arrow_array + p.sizeof_pointer * 2)
              + p.sizeof_pointer * 3
          else acc)
        ALLOCSET_DEFAULT_INITSIZE
    else ALLOCSET_DEFAULT_INITSIZE
  min (((bytes + 4095) / 4096) * 4096) (1024 * 1024)

/-- The arena size formula exactly as the specification claims it: the
sum over the bulk-capable columns of `(N_MAX + 64) * value_width +
N_MAX/64 * 8 + header_overhead`, rounded up to a 4 KiB multiple and
clamped to 1 MiB (no base term, and with a bitmap term of `N_MAX/64 * 8
= N_MAX/8` bytes). -/
def spec_arena_target_bytes (n_max header_overhead : Int)
    (widths : List Int) : Int :=
  let s := widths.foldl
    (fun acc w => acc + (n_max + 64) * w + n_max / 64 * 8 + header_overhead) 0
  min (((s + 4095) / 4096) * 4096) (1024 * 1024)

/-- The amended closed form: the default initial context size of 8192
bytes plus, per bulk-capable column, `(N_MAX + 64) * value_width +
N_MAX/512 + sizeof(ArrowArray) + 5 * sizeof(void *)`, rounded up to a
4 KiB multiple and clamped to 1 MiB. -/
def amended_arena_target_bytes (p : ArenaSizeParams)
    (tc : List ColumnDescription) : Int :=
  let s := (tc.filter fun c => c.bulk_decompression_supported).foldl
    (fun acc col => acc + (p.n_max + 64) * col.value_bytes
      + p.n_max / (64 * 8)
      + (p.sizeof_arrow_array + p.sizeof_pointer * 2)
      + p.sizeof_pointer * 3)
    ALLOCSET_DEFAULT_INITSIZE
  min (((s + 4095) / 4096) * 4096) (1024 * 1024)

theorem foldl_filter_eq {α β : Type} (p : α → Bool) (f : β → α → β) :
    ∀ (l : List α) (init : β),
      (l.filter p).foldl f init =
        l.foldl (fun acc x => if p x then f acc x else acc) init := by
  intro l
  induction l with
  | nil => intro init; rfl
  | cons x xs ih =>
      intro init
      by_cases hp : p x = true
      · simp only [List.filter_cons, if_pos hp, List.foldl_cons, hp, if_true]
        exact ih (f init x)
      · simp only [List.filter_cons, if_neg hp, List.foldl_cons]
        exact ih init

/-- C8 counterexample: with N_MAX = 1024, 64-bit platform sizes
(header overhead 120 bytes per column) and 98 bulk-capable int8
columns, the specification's formula gives 880640 bytes while the code
computes 876544 bytes — the spec formula omits the 8 KiB base and uses
a bitmap term of `N_MAX/64*8 = 128` where the code adds
`N_MAX/(64*8) = 2`. -/
theorem arena_size_spec_formula_mismatch :
    spec_arena_target_bytes 1024 120 (List.replicate 98 8) ≠
      batch_memory_context_bytes ⟨1024, 80, 8⟩ true
        (List.replicate 98
          (⟨1, 1, true, 23, 8, .compressed_col⟩ : ColumnDescription)) := by
  decide

/-- C8 amended: the per-batch memory context size computed at operator
initialization, with bulk decompression enabled, equals the default
initial size of 8192 bytes plus, for every bulk-capable column,
`(N_MAX + 64) * value_width + N_MAX/512 + sizeof(ArrowArray) +
5 * sizeof(void *)`, rounded up to a 4 KiB multiple and clamped to at
most 1 MiB. -/
theorem batch_memory_context_bytes_closed_form (p : ArenaSizeParams)
    (tc : List ColumnDescription) :
    batch_memory_context_bytes p true tc = amended_arena_target_bytes p tc := by
  simp only [batch_memory_context_bytes, amended_arena_target_bytes, if_true]
  rw [foldl_filter_eq (fun c => c.bulk_decompression_supported)
      (fun acc col => acc + (p.n_max + 64) * col.value_bytes
        + p.n_max / (64 * 8)
        + (p.sizeof_arrow_array + p.sizeof_pointer * 2)
        + p.sizeof_pointer * 3) tc ALLOCSET_DEFAULT_INITSIZE]

/-- The value of `DatumGetBool(c)` as the source calls it in the
constification loop of `decompress_chunk_begin`, with `c` the `Const`
NODE POINTER rather than `c->constvalue`: `DatumGetBool(X)` is
`(X) != 0`, and a pointer to an allocated node is never zero, so this
is always true and `!DatumGetBool(c)` never fires. -/
def datumGetBoolOfNodePointer : Bool := true

/-- Embedding of the constification loop of `decompress_chunk_begin`
over `vectorized_quals_original`.  Each qual is run through
`estimate_expression_value`; a resulting `Const` sets the operator-wide
constant-false flag and stops the loop when it is null or when
`!DatumGetBool(c)` — because the source passes the node pointer to
`DatumGetBool`, only the null test is effective, and a non-null false
`Const` falls into the constant-true branch (whose `Assert(false)`
fires in debug builds) and is silently dropped.  A non-`Const` result
must be an `OpExpr` whose second argument is a `Const` (the `Ensure`),
and is appended to `vectorized_quals_constified`. -/
def constify_vectorized_quals_go (estimate : Node → Node) :
    List Node → List Node → Except ExecError (Bool × List Node)
  | [], acc => .ok (false, acc)
  | q :: rest, acc =>
    match estimate q with
    | .const constisnull _constvalue =>
      if constisnull || !datumGetBoolOfNodePointer then .ok (true, acc)
      else constify_vectorized_quals_go estimate rest acc
    | .opExpr opno args =>
      match args with
      | _ :: .const _ _ :: _ =>
          constify_vectorized_quals_go estimate rest (acc ++ [.opExpr opno args])
      | _ => .error .ensureConstFailure
    | _ => .error .castNodeFailure

/-- The constification pass: returns the
`have_constant_false_vectorized_qual` flag and the constified qual
list. -/
def constify_vectorized_quals (estimate : Node → Node) (quals : List Node) :
    Except ExecError (Bool × List Node) :=
  constify_vectorized_quals_go estimate quals []

/-- Modelled from the spec: `estimate_expression_value` is PostgreSQL
constant folding, which is not part of this repository's sources.  Per
the spec's contradiction rule ("a qual whose constant is null is
treated as a contradiction iff the operator is strict"), an operator
expression with a null `Const` argument folds to a null `Const` iff its
operator is strict, and other expressions are left unchanged. -/
def estimate_expression_value_model (op_strict : Nat → Bool) (q : Node) : Node :=
  match q with
  | .opExpr opno args =>
    if (args.any fun a =>
          match a with
          | .const true _ => true
          | _ => false) && op_strict opno then
      .const true false
    else q
  | _ => q

/-- C3 (code bug): a vectorized qual that constifies to a literal
non-null false `Const` does NOT set the constant-false flag — the code
applies `DatumGetBool` to the `Const` node pointer instead of to its
datum, so the boolean-value test never fires; the false qual is
silently dropped from the constified list (and debug builds hit the
`Assert(false)` of the constant-true branch). -/
theorem constant_false_qual_not_detected :
    constify_vectorized_quals id [Node.const false false] = .ok (false, []) := rfl

/-- Largest `int64` value. -/
def INT64_MAX : Int := 9223372036854775807

/-- Smallest `int64` value. -/
def INT64_MIN : Int := -9223372036854775808

/-- The decoded arrow array of one compressed int4 column of one batch:
values buffer and validity bitmap (entry i true ↔ row i non-null). -/
structure ArrowArrayInt32 where
  values : List Int
  validity : List Bool
deriving DecidableEq

/-- One compressed tuple (batch) as read by
`perform_vectorized_sum_int4`: the aggregated attribute read as a
segmentby scalar, the count metadata attribute, and the aggregated
attribute read as a compressed blob (`none` = NULL datum, with the
decoded arrow array standing for the blob contents). -/
structure CompressedTupleModel where
  seg_value : Option Int
  seg_count : Option Int
  compressed_value : Option ArrowArrayInt32
deriving DecidableEq

/-- The segmentby branch of `perform_vectorized_sum_int4`: for each
batch whose scalar value and count are both non-null, the output is
marked non-null and `value * count` is added to the int64 accumulator;
`pg_mul_s64_overflow` and `pg_add_s64_overflow` raise the
numeric-range error when the product or the accumulated sum leaves the
int64 range. -/
def sum_int4_segmentby_go :
    List CompressedTupleModel → Bool → Int → Except ExecError (Bool × Int)
  | [], isnull, acc => .ok (isnull, acc)
  | slot :: rest, isnull, acc =>
    match slot.seg_value, slot.seg_count with
    | some v, some c =>
      if v * c < INT64_MIN ∨ v * c > INT64_MAX then
        .error .numericValueOutOfRange
      else if acc + v * c < INT64_MIN ∨ acc + v * c > INT64_MAX then
        .error .numericValueOutOfRange
      else sum_int4_segmentby_go rest false (acc + v * c)
    | _, _ => sum_int4_segmentby_go rest isnull acc

/-- The segmentby branch over all child tuples, starting from the
all-null output tuple and a zero accumulator; the result is the pair
(isnull, sum) of the produced partial-aggregate tuple. -/
def sum_int4_segmentby (slots : List CompressedTupleModel) :
    Except ExecError (Bool × Int) :=
  sum_int4_segmentby_go slots true 0

/-- The masked per-batch inner loop of the compressed branch: values at
positions whose validity bit is unset do not contribute; the inner loop
has no overflow check (N_MAX · 2³¹ fits an int64). -/
def arrow_batch_sum : List Int → List Bool → Int
  | v :: vs, b :: bs => (if b then v else 0) + arrow_batch_sum vs bs
  | _, _ => 0

/-- The compressed branch of `perform_vectorized_sum_int4`: a NULL
compressed datum fails the `Ensure`; otherwise the output is marked
non-null — BEFORE the validity bitmap is consulted — and the masked
batch sum is added to the int64 accumulator under an overflow check. -/
def sum_int4_compressed_go :
    List CompressedTupleModel → Bool → Int → Except ExecError (Bool × Int)
  | [], isnull, acc => .ok (isnull, acc)
  | slot :: rest, _, acc =>
    match slot.compressed_value with
    | none => .error .unexpectedNullCompressedValue
    | some arrow =>
      if acc + arrow_batch_sum arrow.values arrow.validity < INT64_MIN ∨
          acc + arrow_batch_sum arrow.values arrow.validity > INT64_MAX then
        .error .numericValueOutOfRange
      else
        sum_int4_compressed_go rest false
          (acc + arrow_batch_sum arrow.values arrow.validity)

/-- The compressed branch over all child tuples. -/
def sum_int4_compressed (slots : List CompressedTupleModel) :
    Except ExecError (Bool × Int) :=
  sum_int4_compressed_go slots true 0

/-- `F_SUM_INT4`: the pg_proc OID of `sum(int4)`. -/
def F_SUM_INT4 : Nat := 2108

/-- The fields of `DecompressChunkState` that the exec path under
consideration reads, together with the remaining child compressed
tuples and a counter of child `exec` (`ExecProcNode`) calls. -/
structure DecompressChunkStateModel where
  perform_vectorized_aggregation : Bool
  have_constant_false_vectorized_qual : Bool
  aggfnoid : Nat
  agg_column_type : ColumnType
  all_batch_states_unused : Bool
  child : List CompressedTupleModel
  child_calls : Nat
deriving DecidableEq

/-- Exec-level embedding of `perform_vectorized_sum_int4`: the branch
is chosen by the type of `template_columns[0]`; either branch drains
the child scan (one `ExecProcNode` call per compressed tuple plus the
final empty one), uses one batch state, and produces the single
partial-aggregate tuple. -/
def perform_vectorized_sum_int4 (st : DecompressChunkStateModel) :
    Except ExecError (Option (Bool × Int) × DecompressChunkStateModel) :=
  match st.agg_column_type with
  | .segmentby_col =>
    match sum_int4_segmentby st.child with
    | .error e => .error e
    | .ok r => .ok (some r,
        { st with
          child := []
          child_calls := st.child_calls + st.child.length + 1
          all_batch_states_unused := false })
  | .compressed_col =>
    match sum_int4_compressed st.child with
    | .error e => .error e
    | .ok r => .ok (some r,
        { st with
          child := []
          child_calls := st.child_calls + st.child.length + 1
          all_batch_states_unused := false })
  | _ => .error .unsupportedColumnType

/-- Embedding of `perform_vectorized_aggregation`: when a batch state
was already used, the single result tuple was already emitted and a
cleared (empty) tuple — end of stream — is returned; otherwise the
aggregate function is dispatched: only `F_SUM_INT4` is implemented and
anything else raises the feature-not-supported error. -/
def perform_vectorized_aggregation (st : DecompressChunkStateModel) :
    Except ExecError (Option (Bool × Int) × DecompressChunkStateModel) :=
  if !st.all_batch_states_unused then .ok (none, st)
  else if st.aggfnoid = F_SUM_INT4 then perform_vectorized_sum_int4 st
  else .error .aggNotSupported

/-- Embedding of `decompress_chunk_exec_impl`.  The row-by-row batch
queue path (the FIFO and heap queue implementations live in headers
that are not among the sources) is abstracted as the `queuePath`
parameter; it is reached only when vectorized aggregation is off and
the constant-false flag is unset. -/
def decompress_chunk_exec_impl
    (queuePath : DecompressChunkStateModel →
      Except ExecError (Option (Bool × Int) × DecompressChunkStateModel))
    (st : DecompressChunkStateModel) :
    Except ExecError (Option (Bool × Int) × DecompressChunkStateModel) :=
  if st.perform_vectorized_aggregation then perform_vectorized_aggregation st
  else if st.have_constant_false_vectorized_qual then .ok (none, st)
  else queuePath st

/-- The plan-level inputs that the modelled `decompress_chunk_begin`
consumes, including the `Aggref` function OID of the single
vectorized-aggregation target entry (which `begin` itself never
inspects). -/
structure BeginConfig where
  decompression_map : List Int
  is_segmentby_column : List Bool
  bulk_decompression_column : List Bool
  col_cfg : ExecColumnConfig
  arena : ArenaSizeParams
  enable_bulk_decompression : Bool
  batch_sorted_merge : Bool
  aggfnoid : Nat
  vectorized_quals_original : List Node

/-- What `decompress_chunk_begin` produces. -/
structure BeginResult where
  template_cols : List ColumnDescription
  num_compressed : Nat
  num_total : Nat
  batch_memory_bytes : Int
  queue : BatchQueueKind
  have_constant_false_vectorized_qual : Bool
  vectorized_quals_constified : List Node

/-- Embedding of `decompress_chunk_begin`: build the descriptor array,
compute the batch memory context size, choose the batch queue, and
constify the vectorized quals.  No initialization step inspects the
aggregate function. -/
def decompress_chunk_begin (estimate : Node → Node) (cfg : BeginConfig) :
    Except ExecError BeginResult :=
  match template_columns cfg.col_cfg cfg.decompression_map
      cfg.is_segmentby_column cfg.bulk_decompression_column with
  | .error e => .error e
  | .ok tc =>
    match constify_vectorized_quals estimate cfg.vectorized_quals_original with
    | .error e => .error e
    | .ok cf =>
      .ok ⟨tc,
        (count_decompressed_columns cfg.decompression_map
          cfg.is_segmentby_column).1,
        (count_decompressed_columns cfg.decompression_map
          cfg.is_segmentby_column).2,
        batch_memory_context_bytes cfg.arena cfg.enable_bulk_decompression tc,
        choose_batch_queue cfg.batch_sorted_merge, cf.1, cf.2⟩

/-- C1 counterexample: one batch with segmentby value `INT32_MAX` and
count 2 does NOT raise a numeric-range error — the multiplication and
accumulation are carried out and checked in int64, and
2147483647 · 2 = 4294967294 fits easily; the result is the non-null
partial sum 4294967294. -/
theorem sum_int4_segmentby_int32max_twice_ok :
    sum_int4_segmentby [⟨some 2147483647, some 2, none⟩] =
      .ok (false, 4294967294) := rfl

/-- C1 amended: for vectorized SUM(int4) over a Segmentby column, each
batch with non-null scalar v and non-null count c adds `v * c` to the
int64 accumulator, and the overflow check is against the int64 range
(raising a numeric-range error only when the product or the running
sum leaves it): a single batch yields `v * c` whenever that fits in
int64; v=3, c=1000 yields 3000; v=INT32_MAX, c=2 yields 4294967294
without error; and an accumulation that exceeds int64 raises the
numeric-range error. -/
theorem sum_int4_segmentby_overflow_semantics :
    (∀ v c : Int, sum_int4_segmentby [⟨some v, some c, none⟩] =
        if v * c < INT64_MIN ∨ v * c > INT64_MAX then
          .error .numericValueOutOfRange
        else .ok (false, v * c)) ∧
    sum_int4_segmentby [⟨some 3, some 1000, none⟩] = .ok (false, 3000) ∧
    sum_int4_segmentby [⟨some 2147483647, some 2, none⟩] =
      .ok (false, 4294967294) ∧
    sum_int4_segmentby [⟨some 2147483647, some 2147483647, none⟩,
        ⟨some 2147483647, some 2147483647, none⟩,
        ⟨some 2147483647, some 2147483647, none⟩] =
      .error .numericValueOutOfRange := by
  refine ⟨?_, rfl, rfl, rfl⟩
  intro v c
  simp only [sum_int4_segmentby, sum_int4_segmentby_go]
  by_cases h1 : v * c < INT64_MIN ∨ v * c > INT64_MAX
  · simp only [if_pos h1]
  · simp only [zero_add, if_neg h1]

/-- C4 (code bug): the compressed branch of vectorized SUM(int4) marks
the output non-null as soon as any compressed batch datum arrives,
before consulting the validity bitmap; on a single batch whose values
are all null (validity bitmap all-zero) it therefore returns the
non-null partial sum 0 instead of null. -/
theorem sum_int4_compressed_all_null_gives_zero :
    sum_int4_compressed
        [⟨none, none, some ⟨[1, 2, 3], [false, false, false]⟩⟩] =
      .ok (false, 0) := rfl

/-- C6: a vectorized qual whose constant operand evaluates to null is
treated as a contradiction (the constant-false flag is set and
constification stops) iff its operator is strict — modelling the
PostgreSQL constant folding by its strictness rule — and whenever the
flag is set, the non-aggregating exec path returns end of stream
immediately, emitting no rows and decompressing nothing; under a
non-strict operator the null-constant qual is kept as a normal
vectorized qual and is not treated as a contradiction. -/
theorem null_const_qual_contradiction_iff_strict (op_strict : Nat → Bool)
    (opno vn : Nat) (attno : Int) (d : Bool) :
    (constify_vectorized_quals (estimate_expression_value_model op_strict)
        [.opExpr opno [.var vn attno, .const true d]] =
      .ok (op_strict opno,
        if op_strict opno then []
        else [.opExpr opno [.var vn attno, .const true d]])) ∧
    (∀ queuePath st, st.have_constant_false_vectorized_qual = true →
      st.perform_vectorized_aggregation = false →
      decompress_chunk_exec_impl queuePath st = .ok (none, st)) := by
  constructor
  · cases hs : op_strict opno
    · simp [constify_vectorized_quals, constify_vectorized_quals_go,
        estimate_expression_value_model, hs]
    · simp [constify_vectorized_quals, constify_vectorized_quals_go,
        estimate_expression_value_model, hs, datumGetBoolOfNodePointer]
  · intro qp st h1 h2
    simp [decompress_chunk_exec_impl, h1, h2]

/-- Witness for C6 at a strict operator and a concrete flagged state. -/
theorem null_const_qual_contradiction_iff_strict_witness :
    (constify_vectorized_quals (estimate_expression_value_model fun _ => true)
        [.opExpr 5 [.var 1 1, .const true false]] = .ok (true, [])) ∧
    decompress_chunk_exec_impl (fun st => .ok (none, st))
        ⟨false, true, 0, .segmentby_col, true, [], 0⟩ =
      .ok (none, ⟨false, true, 0, .segmentby_col, true, [], 0⟩) := by
  constructor
  · have h := (null_const_qual_contradiction_iff_strict
      (fun _ => true) 5 1 1 false).1
    simpa using h
  · exact (null_const_qual_contradiction_iff_strict
      (fun _ => true) 5 1 1 false).2 _ _ rfl rfl

/-- The begin-time configuration of an operator whose single
vectorized aggregate is `sum(float4)` (OID 2110), which the executor
does not support. -/
def beginUnsupportedAggConfig : BeginConfig :=
  ⟨[1, -1], [true, false], [false, false],
    ⟨true, fun i => if i = 0 then 23 else -1, fun _ => 23, fun _ => 4⟩,
    ⟨1024, 80, 8⟩, false, false, 2110, []⟩

/-- C9 counterexample: operator initialization succeeds even though the
operator's aggregate function is unsupported — the not-supported error
is NOT raised at operator initialization, which never inspects the
aggregate. -/
theorem begin_accepts_unsupported_agg :
    exceptOk (decompress_chunk_begin id beginUnsupportedAggConfig) = true ∧
    beginUnsupportedAggConfig.aggfnoid ≠ F_SUM_INT4 := by
  exact ⟨rfl, by decide⟩

/-- C9 amended: when vectorized aggregation is selected for an
aggregate other than the supported SUM(int4), the clear not-supported
error is raised on the FIRST exec call — before any row has been
emitted — and never mid-stream: once the single aggregate row has been
produced (some batch state is in use), every subsequent exec call
returns end of stream rather than an error. -/
theorem unsupported_agg_error_at_first_exec
    (queuePath : DecompressChunkStateModel →
      Except ExecError (Option (Bool × Int) × DecompressChunkStateModel))
    (st : DecompressChunkStateModel)
    (hagg : st.perform_vectorized_aggregation = true) :
    (st.all_batch_states_unused = true → st.aggfnoid ≠ F_SUM_INT4 →
      decompress_chunk_exec_impl queuePath st = .error .aggNotSupported) ∧
    (st.all_batch_states_unused = false →
      decompress_chunk_exec_impl queuePath st = .ok (none, st)) := by
  constructor
  · intro hfresh hfn
    simp [decompress_chunk_exec_impl, hagg, perform_vectorized_aggregation,
      hfresh, hfn]
  · intro hused
    simp [decompress_chunk_exec_impl, hagg, perform_vectorized_aggregation,
      hused]

/-- Witness for C9 at concrete states: first exec errors with the
not-supported error, later exec calls return end of stream. -/
theorem unsupported_agg_error_at_first_exec_witness :
    decompress_chunk_exec_impl (fun st => .ok (none, st))
        ⟨true, false, 2110, .segmentby_col, true, [], 0⟩ =
      .error .aggNotSupported ∧
    decompress_chunk_exec_impl (fun st => .ok (none, st))
        ⟨true, false, 2110, .segmentby_col, false, [], 0⟩ =
      .ok (none, ⟨true, false, 2110, .segmentby_col, false, [], 0⟩) :=
  ⟨(unsupported_agg_error_at_first_exec (fun st => .ok (none, st))
      ⟨true, false, 2110, .segmentby_col, true, [], 0⟩ rfl).1 rfl (by decide),
   (unsupported_agg_error_at_first_exec (fun st => .ok (none, st))
      ⟨true, false, 2110, .segmentby_col, false, [], 0⟩ rfl).2 rfl⟩

end TimescaleDecompress
